import Mathlib

/-!
Verification of the vibenext control-plane session orchestration core.

The definitions below shallowly embed the TypeScript sources of the
repository (`packages/control-plane/src/threads.ts`, `agent.ts`,
`server.ts`, and the shared `types.ts`).  Asynchronous background tasks
are embedded as explicit state-passing functions: the results of
version-control calls are supplied through a `Git` interface over an
abstract world type, so that both success and failure executions of a
background task are ordinary function applications.
-/

/-- `ThreadStatus` from `types.ts`: `"IDLE" | "RUNNING" | "ERROR"`. -/
inductive ThreadStatus where
  | IDLE
  | RUNNING
  | ERROR
deriving DecidableEq, Repr

/-- `OperationType` from `types.ts` (without the `null` case, which is
modelled by `Option Operation`): `"creating" | "switching" | "merging" | "pushing"`. -/
inductive Operation where
  | creating
  | switching
  | merging
  | pushing
deriving DecidableEq, Repr

/-- Role of a conversation turn (`MessageParam.role`). -/
inductive Role where
  | user
  | assistant
deriving DecidableEq, Repr

/-- A content block of an Anthropic message: text, a tool invocation, or a
tool result (`ContentBlock` / `ToolResultBlockParam` in the SDK types used
by `agent.ts`). -/
inductive ContentBlock where
  | text (text : String)
  | toolUse (id : String) (name : String)
  | toolResult (toolUseId : String) (content : String)
deriving DecidableEq, Repr

/-- Message content: either a plain string or a list of typed blocks. -/
inductive MessageContent where
  | text (s : String)
  | blocks (bs : List ContentBlock)
deriving DecidableEq, Repr

/-- One conversation turn (`MessageParam`). -/
structure ThreadMessage where
  role : Role
  content : MessageContent
deriving DecidableEq, Repr

/-- `Thread` from `types.ts`.  `errorMessage?: string` is an `Option`,
`operation: OperationType` is an `Option Operation` (with `none` for
`null`), `lastCommitHash: string | null` is an `Option String`. -/
structure Thread where
  id : String
  branchName : String
  createdAt : Nat
  status : ThreadStatus
  history : List ThreadMessage
  lastCommitHash : Option String
  errorMessage : Option String
  operation : Option Operation
deriving DecidableEq, Repr

/-- The in-memory thread registry `const threads = new Map<string, Thread>()`
of `threads.ts`, embedded as an association list with JS `Map` semantics
(`set` replaces in place, `delete` removes the entry, `get` looks up). -/
abbrev Registry : Type := List (String × Thread)

/-- `threads.get(id)`. -/
def Registry.get : Registry → String → Option Thread
  | [], _ => none
  | (k, v) :: rest, tid => if k = tid then some v else Registry.get rest tid

/-- `threads.set(id, t)`: replaces the value of an existing key, otherwise
appends a new entry (JS `Map.set`). -/
def Registry.set : Registry → String → Thread → Registry
  | [], tid, t => [(tid, t)]
  | (k, v) :: rest, tid, t =>
    if k = tid then (tid, t) :: rest else (k, v) :: Registry.set rest tid t

/-- `threads.delete(id)` (JS `Map.delete`): removes the entry with the key. -/
def Registry.delete : Registry → String → Registry
  | [], _ => []
  | (k, v) :: rest, tid => if k = tid then rest else (k, v) :: Registry.delete rest tid

/-- `getAllThreads()` of `threads.ts`: `Array.from(threads.values())`. -/
def getAllThreads (reg : Registry) : List Thread :=
  reg.map (fun p => p.2)

/-- `getThread(threadId)` of `threads.ts`. -/
def getThread (reg : Registry) (threadId : String) : Option Thread :=
  Registry.get reg threadId

/-- Registry well-formedness: keys are distinct (always true of a JS `Map`)
and every stored thread's `id` equals its key (maintained by every code
path of `threads.ts`). -/
def Registry.WF (reg : Registry) : Prop :=
  (reg.map (fun p => p.1)).Nodup ∧ ∀ p ∈ reg, (p.2).id = p.1

instance (reg : Registry) : Decidable reg.WF := by
  unfold Registry.WF
  infer_instance

theorem Registry.get_set_self (reg : Registry) (tid : String) (t : Thread) :
    Registry.get (Registry.set reg tid t) tid = some t := by
  induction reg with
  | nil => simp [Registry.set, Registry.get]
  | cons p rest ih =>
    obtain ⟨k, v⟩ := p
    by_cases h : k = tid
    · simp [Registry.set, Registry.get, h]
    · simp [Registry.set, Registry.get, h, ih]

theorem Registry.get_eq_none_of_not_mem (reg : Registry) (tid : String)
    (h : tid ∉ reg.map (fun p => p.1)) : Registry.get reg tid = none := by
  induction reg with
  | nil => rfl
  | cons p rest ih =>
    obtain ⟨k, v⟩ := p
    simp only [List.map_cons, List.mem_cons] at h
    push_neg at h
    simp only [Registry.get, if_neg (Ne.symm h.1)]
    exact ih h.2

/-- `s.slice(0, n)` on an ASCII string, at the character-list level (so
that concrete instances evaluate by kernel reduction). -/
def strTake (s : String) (n : Nat) : String :=
  String.mk (s.toList.take n)

/-- `s.startsWith(pre)`, at the character-list level. -/
def strStartsWith (s pre : String) : Bool :=
  pre.toList.isPrefixOf s.toList

theorem Registry.get_delete_self (reg : Registry) (tid : String)
    (hnd : (reg.map (fun p => p.1)).Nodup) :
    Registry.get (Registry.delete reg tid) tid = none := by
  induction reg with
  | nil => rfl
  | cons p rest ih =>
    obtain ⟨k, v⟩ := p
    simp only [List.map_cons, List.nodup_cons] at hnd
    by_cases h : k = tid
    · subst h
      simp only [Registry.delete, if_pos rfl]
      exact Registry.get_eq_none_of_not_mem rest k hnd.1
    · simp [Registry.delete, Registry.get, h, ih hnd.2]

/-!
## The version-control adapter interface

`threads.ts` and `agent.ts` import `getGitManager` from `git.ts`, whose
implementation is not part of the sources at hand; its call signatures are
fixed by the call sites. Each operation is a fallible state transformer
over an abstract world `σ` (the state of the repository working tree): a
background task run is then a plain function of the world. -/

/-- The operations of the git manager used by `threads.ts` / `agent.ts`
(signatures from the call sites and the VersionControlAdapter contract). -/
structure Git (σ : Type) where
  isDirty : EStateM String σ Bool
  getCurrentBranch : EStateM String σ String
  autoCommit : String → EStateM String σ (Option String)
  createBranch : String → EStateM String σ Unit
  createBranchFrom : String → String → EStateM String σ Unit
  checkout : String → EStateM String σ Unit
  merge : String → EStateM String σ Unit
  push : String → String → EStateM String σ Unit
  getLatestCommitHash : EStateM String σ String

/-- A concrete error-free world for the git manager: the state of the
working tree that the adapter manipulates. `created` logs each branch
creation together with the reference it was created from. -/
structure GitState where
  currentBranch : String
  dirty : Bool
  commits : Nat
  branches : List String
  created : List (String × String)
deriving DecidableEq, Repr

/-- Modelled from the spec: `git.ts` (the VersionControlAdapter) is not
among the sources; this is its error-free semantics over `GitState` per
the adapter contract — `autoCommit` commits all pending changes and
returns the new hash (or `none` when the tree is clean), `createBranch`
branches from the current `HEAD` and checks the new branch out,
`createBranchFrom` branches from the explicit base reference, `checkout`
moves `HEAD`. -/
def gitSem : Git GitState where
  isDirty := fun s => .ok s.dirty s
  getCurrentBranch := fun s => .ok s.currentBranch s
  autoCommit := fun _ s =>
    if s.dirty then
      .ok (some ("commit" ++ toString (s.commits + 1)))
        { s with dirty := false, commits := s.commits + 1 }
    else .ok none s
  createBranch := fun b s =>
    .ok () { s with branches := b :: s.branches, currentBranch := b,
                    created := (b, s.currentBranch) :: s.created }
  createBranchFrom := fun b base s =>
    .ok () { s with branches := b :: s.branches, currentBranch := b,
                    created := (b, base) :: s.created }
  checkout := fun b s => .ok () { s with currentBranch := b }
  merge := fun _ s => .ok () { s with commits := s.commits + 1 }
  push := fun _ _ s => .ok () s
  getLatestCommitHash := fun s => .ok ("commit" ++ toString s.commits) s

/-!
## `threads.ts`: the session registry and its entry points
-/

/-- The synchronous part of `createThread` (`threads.ts`): allocates the
branch name from the id, registers a placeholder thread with
`operation: "creating"`, and returns it before any git work runs (the
background task `createThreadAsync` is a separate function below; this
function does not even take a git interface). `threadId` stands for the
generated `uuidv4()` and `now` for `Date.now()`. -/
def createThread (reg : Registry) (threadId : String) (now : Nat) : Thread × Registry :=
  let branchName := "feat/vibe-" ++ strTake threadId 8
  let thread : Thread :=
    { id := threadId
      branchName := branchName
      createdAt := now
      status := .IDLE
      history := []
      lastCommitHash := none
      errorMessage := none
      operation := some .creating }
  (thread, Registry.set reg threadId thread)

/-- The git calls of `createThreadAsync` (`threads.ts`), in source order:
dirty check, auto-commit of a dirty tree, then branch creation.

Modelled from the spec in one respect: the `baseRef` parameter.  The
`server.ts` route `POST /threads` passes an optional `baseBranch` into
`createThread`, but the baseRef-aware body of `createThread` is not among
the sources (the available `threads.ts` snapshot has the one-argument
version its caller predates); per the spec the provisioning step creates
the branch from the current `HEAD` or from the explicit base reference. -/
def createThreadAsyncRun {σ : Type} (git : Git σ) (threadId branchName : String)
    (baseRef : Option String) : EStateM String σ Unit := do
  let dirty ← git.isDirty
  if dirty then
    let _ ← git.getCurrentBranch
    let _ ← git.autoCommit ("WIP: Auto-save before vibe thread " ++ strTake threadId 8)
  match baseRef with
  | none => git.createBranch branchName
  | some base => git.createBranchFrom branchName base

/-- `createThreadAsync` (`threads.ts`): on success clears `operation`; on
any failure clears `operation`, sets `status = "ERROR"` and records the
error message.  Either way the outcome is written back with `threads.set`. -/
def createThreadAsync {σ : Type} (git : Git σ) (reg : Registry) (threadId : String)
    (thread : Thread) (baseRef : Option String) (s : σ) : Registry × σ :=
  match createThreadAsyncRun git threadId thread.branchName baseRef s with
  | .ok _ s' =>
    (Registry.set reg threadId { thread with operation := none }, s')
  | .error msg s' =>
    (Registry.set reg threadId
      { thread with operation := none, status := .ERROR, errorMessage := some msg }, s')

/-- `sendMessage` (`threads.ts`): throws `NotFound` for an unknown id,
throws when `status === "RUNNING"`, otherwise sets the thread to
`RUNNING`, clears `errorMessage`, schedules `processMessageAsync` and
returns the new status.  The returned registry is the state after the
synchronous part (the source mutates the registry's thread in place). -/
def sendMessage (reg : Registry) (threadId : String) :
    Registry × Except String ThreadStatus :=
  match Registry.get reg threadId with
  | none => (reg, .error ("Thread " ++ threadId ++ " not found"))
  | some thread =>
    if thread.status = .RUNNING then
      (reg, .error ("Thread " ++ threadId ++ " is already processing a message"))
    else
      (Registry.set reg threadId
        { thread with status := .RUNNING, errorMessage := none }, .ok .RUNNING)

/-- The result type of `mergeThread` / `pushThread` / `switchToThread`. -/
structure OpResult where
  success : Bool
  error : Option String
deriving DecidableEq, Repr

/-- Rendering of an `OperationType` value into the error strings of
`threads.ts` (template literal `${thread.operation}`). -/
def Operation.str : Operation → String
  | .creating => "creating"
  | .switching => "switching"
  | .merging => "merging"
  | .pushing => "pushing"

/-- Shared guard of `mergeThread` / `pushThread` / `switchToThread`
(`threads.ts`): not-found, `status === "RUNNING"`, then truthy
`thread.operation`; on passing, mark the given operation in the registry.
Each entry point inlines this sequence verbatim in the source. -/
def guardAndMark (reg : Registry) (threadId : String) (op : Operation)
    (runningMsg : String) : Registry × Except String Thread :=
  match Registry.get reg threadId with
  | none => (reg, .error ("Thread " ++ threadId ++ " not found"))
  | some thread =>
    if thread.status = .RUNNING then (reg, .error runningMsg)
    else
      match thread.operation with
      | some cur =>
        (reg, .error ("Operation '" ++ cur.str ++ "' already in progress"))
      | none =>
        let marked := { thread with operation := some op }
        (Registry.set reg threadId marked, .ok marked)

/-- Synchronous part of `mergeThread` (`threads.ts`). -/
def mergeThread (reg : Registry) (threadId : String) : Registry × OpResult :=
  match guardAndMark reg threadId .merging "Cannot merge while thread is running" with
  | (reg', .ok _) => (reg', ⟨true, none⟩)
  | (reg', .error e) => (reg', ⟨false, some e⟩)

/-- Synchronous part of `pushThread` (`threads.ts`). -/
def pushThread (reg : Registry) (threadId : String) : Registry × OpResult :=
  match guardAndMark reg threadId .pushing "Cannot push while thread is running" with
  | (reg', .ok _) => (reg', ⟨true, none⟩)
  | (reg', .error e) => (reg', ⟨false, some e⟩)

/-- Synchronous part of `switchToThread` (`threads.ts`). -/
def switchToThread (reg : Registry) (threadId : String) : Registry × OpResult :=
  match guardAndMark reg threadId .switching
      "Cannot switch to a thread that is currently running" with
  | (reg', .ok _) => (reg', ⟨true, none⟩)
  | (reg', .error e) => (reg', ⟨false, some e⟩)

/-- `deleteThread` (`threads.ts`). -/
def deleteThread (reg : Registry) (threadId : String) : Registry × Bool :=
  (Registry.delete reg threadId, (Registry.get reg threadId).isSome)

/-- The git calls of the `try` block of `mergeThreadAsync` (`threads.ts`),
in source order: branch check/checkout, dirty check/auto-commit, checkout
of `main`, merge of the thread branch, push of `main`. -/
def mergeThreadAsyncRun {σ : Type} (git : Git σ) (thread : Thread) :
    EStateM String σ Unit := do
  let currentBranch ← git.getCurrentBranch
  if currentBranch ≠ thread.branchName then
    git.checkout thread.branchName
  let isDirty ← git.isDirty
  if isDirty then
    let _ ← git.autoCommit "Auto: Final changes before merge"
  git.checkout "main"
  git.merge thread.branchName
  git.push "origin" "main"

/-- `mergeThreadAsync` (`threads.ts`): on success the thread is deleted
from the registry; on failure it is written back with `operation = null`,
`status = "ERROR"` and the error message. -/
def mergeThreadAsync {σ : Type} (git : Git σ) (reg : Registry) (threadId : String)
    (thread : Thread) (s : σ) : Registry × σ :=
  match mergeThreadAsyncRun git thread s with
  | .ok _ s' => (Registry.delete reg threadId, s')
  | .error msg s' =>
    (Registry.set reg threadId
      { thread with operation := none, status := .ERROR, errorMessage := some msg }, s')

/-- The git calls of `pushThreadAsync` (`threads.ts`) up to and including
the `getLatestCommitHash` that refreshes `lastCommitHash`; returns the new
hash when the dirty path ran, `none` otherwise.  The final `push` is a
separate step in `pushThreadAsync` below because the hash refresh has
already mutated the thread when the push fails. -/
def pushThreadAsyncPre {σ : Type} (git : Git σ) (thread : Thread) :
    EStateM String σ (Option String) := do
  let currentBranch ← git.getCurrentBranch
  if currentBranch ≠ thread.branchName then
    git.checkout thread.branchName
  let isDirty ← git.isDirty
  if isDirty then
    let _ ← git.autoCommit "Auto: Save changes before push"
    let h ← git.getLatestCommitHash
    pure (some h)
  else
    pure none

/-- `pushThreadAsync` (`threads.ts`): commit pending work and refresh
`lastCommitHash` if dirty, push the branch; on success clear `operation`,
on failure record the error (keeping an already-refreshed hash). -/
def pushThreadAsync {σ : Type} (git : Git σ) (reg : Registry) (threadId : String)
    (thread : Thread) (s : σ) : Registry × σ :=
  match pushThreadAsyncPre git thread s with
  | .error msg s' =>
    (Registry.set reg threadId
      { thread with operation := none, status := .ERROR, errorMessage := some msg }, s')
  | .ok newHash s' =>
    let thread' := match newHash with
      | some h => { thread with lastCommitHash := some h }
      | none => thread
    match git.push "origin" thread.branchName s' with
    | .ok _ s'' =>
      (Registry.set reg threadId { thread' with operation := none }, s'')
    | .error msg s'' =>
      (Registry.set reg threadId
        { thread' with operation := none, status := .ERROR, errorMessage := some msg }, s'')

/-- The git calls of the `try` block of `switchToThreadAsync`
(`threads.ts`): auto-commit the currently checked-out branch if dirty,
then checkout the thread's branch. -/
def switchToThreadAsyncRun {σ : Type} (git : Git σ) (threadId : String)
    (thread : Thread) : EStateM String σ Unit := do
  let isDirty ← git.isDirty
  if isDirty then
    let _ ← git.getCurrentBranch
    let _ ← git.autoCommit ("WIP: Auto-save before switching to thread " ++ strTake threadId 8)
  git.checkout thread.branchName

/-- `switchToThreadAsync` (`threads.ts`): on success clears `operation`;
on failure clears `operation`, sets `status = "ERROR"`, records the error. -/
def switchToThreadAsync {σ : Type} (git : Git σ) (reg : Registry) (threadId : String)
    (thread : Thread) (s : σ) : Registry × σ :=
  match switchToThreadAsyncRun git threadId thread s with
  | .ok _ s' =>
    (Registry.set reg threadId { thread with operation := none }, s')
  | .error msg s' =>
    (Registry.set reg threadId
      { thread with operation := none, status := .ERROR, errorMessage := some msg }, s')

/-- One full `switchTo` call as observed after its background task has
completed: the synchronous entry point followed (when it succeeded) by
`switchToThreadAsync` on the marked thread. -/
def switchToThreadFull {σ : Type} (git : Git σ) (reg : Registry) (threadId : String)
    (s : σ) : Registry × σ × Bool :=
  match guardAndMark reg threadId .switching
      "Cannot switch to a thread that is currently running" with
  | (reg', .ok marked) =>
    let (reg'', s') := switchToThreadAsync git reg' threadId marked s
    (reg'', s', true)
  | (reg', .error _) => (reg', s, false)

/-!
## `agent.ts`: the agent loop of `AgentManager.processMessage`

The external Anthropic call is embedded by its observable session: each
iteration of the `while (continueLoop)` loop that ends with
`stop_reason === "tool_use"` contributes an assistant turn plus a
tool-result turn (an `AgentStep`); the loop ends either with a final
response (`Except.ok content`) or with a thrown error (`Except.error`). -/

/-- One `tool_use` iteration of the agent loop: the assistant content of
the response and the tool results fed back as a user turn. -/
abbrev AgentStep : Type := List ContentBlock × List ContentBlock

/-- The turns appended to `history` by the `tool_use` iterations. -/
def agentTurns : List AgentStep → List ThreadMessage
  | [] => []
  | (content, results) :: rest =>
    ⟨.assistant, .blocks content⟩ :: ⟨.user, .blocks results⟩ :: agentTurns rest

/-- The `while (continueLoop)` loop of `AgentManager.processMessage`
(`agent.ts`): appends the assistant response of each iteration, and the
tool results when `stop_reason === "tool_use"`; stops on a final response
or on a thrown error, returning the thread as mutated so far together
with the error, if any. -/
def agentLoop (thread : Thread) : List AgentStep →
    Except String (List ContentBlock) → Thread × Option String
  | [], .ok content =>
    ({ thread with history := thread.history ++ [⟨.assistant, .blocks content⟩] }, none)
  | [], .error msg => (thread, some msg)
  | (content, results) :: rest, outcome =>
    agentLoop
      { thread with history := thread.history ++
          [⟨.assistant, .blocks content⟩, ⟨.user, .blocks results⟩] }
      rest outcome

/-- `userMessage.slice(0, 50).replace(/\n/g, " ")` (`agent.ts`). -/
def messageSnippet (userMessage : String) : String :=
  String.mk ((userMessage.toList.take 50).map (fun c => if c = '\n' then ' ' else c))

/-- `AgentManager.processMessage` (`agent.ts`): push the user turn, run
the loop, then on loop success auto-commit (recording the hash when one
was produced) and set `status = "IDLE"`; on any thrown error (from the
loop or the auto-commit) set `status = "ERROR"` and record the message —
the already-appended history is kept.  Returns the final thread value as
delivered through `onUpdate` and the registry write-back of the caller. -/
def processMessage {σ : Type} (git : Git σ) (thread : Thread) (userMessage : String)
    (steps : List AgentStep) (outcome : Except String (List ContentBlock)) (s : σ) :
    Thread × σ :=
  let t1 := { thread with history := thread.history ++ [⟨.user, .text userMessage⟩] }
  match agentLoop t1 steps outcome with
  | (t2, some err) => ({ t2 with status := .ERROR, errorMessage := some err }, s)
  | (t2, none) =>
    match git.autoCommit ("Auto: " ++ messageSnippet userMessage) s with
    | .ok commitHash s' =>
      let t3 := match commitHash with
        | some h => { t2 with lastCommitHash := some h }
        | none => t2
      ({ t3 with status := .IDLE }, s')
    | .error msg s' => ({ t2 with status := .ERROR, errorMessage := some msg }, s')

/-- `processMessageAsync` (`threads.ts`): re-establish the thread's branch
if needed, then drive `AgentManager.processMessage`; the `catch` writes
`status = "ERROR"` with the message back (the same fields
`processMessage` itself already set before rethrowing). -/
def processMessageAsync {σ : Type} (git : Git σ) (reg : Registry) (threadId : String)
    (thread : Thread) (message : String) (steps : List AgentStep)
    (outcome : Except String (List ContentBlock)) (s : σ) : Registry × σ :=
  match (do
      let currentBranch ← git.getCurrentBranch
      if currentBranch ≠ thread.branchName then
        git.checkout thread.branchName : EStateM String σ Unit) s with
  | .error msg s' =>
    (Registry.set reg threadId
      { thread with status := .ERROR, errorMessage := some msg }, s')
  | .ok _ s' =>
    let (t', s'') := processMessage git thread message steps outcome s'
    (Registry.set reg threadId t', s'')

/-!
## `agent.ts`: the command safety gate

`BLOCKED_COMMAND_PATTERNS` is a list of JavaScript regular expressions;
`isCommandBlocked` returns the first match's reason.  The patterns use
only literals, `\s`, character classes, `.`, `*`, `+`, `?`, grouping and
the end anchor `$`, so they are embedded as regular expression syntax
trees matched with Brzozowski derivatives.  `RegExp.prototype.test`
searches for a match at any position; the `i` flag is embedded by
lowercasing the input (every letter in the patterns is written in lower
case). -/

/-- Regular expressions over characters (character sets as predicates). -/
inductive Regex where
  | emp
  | eps
  | pred (p : Char → Bool)
  | cat (r1 r2 : Regex)
  | alt (r1 r2 : Regex)
  | star (r : Regex)

/-- Does the language of `r` contain the empty string? -/
def Regex.nullable : Regex → Bool
  | .emp => false
  | .eps => true
  | .pred _ => false
  | .cat a b => a.nullable && b.nullable
  | .alt a b => a.nullable || b.nullable
  | .star _ => true

/-- Size-reducing concatenation. -/
def Regex.scat : Regex → Regex → Regex
  | .emp, _ => .emp
  | _, .emp => .emp
  | .eps, b => b
  | a, .eps => a
  | a, b => .cat a b

/-- Size-reducing alternation. -/
def Regex.salt : Regex → Regex → Regex
  | .emp, b => b
  | a, .emp => a
  | a, b => .alt a b

/-- Brzozowski derivative of `r` by the character `c`. -/
def Regex.deriv : Regex → Char → Regex
  | .emp, _ => .emp
  | .eps, _ => .emp
  | .pred p, c => if p c then .eps else .emp
  | .cat a b, c =>
    if a.nullable then Regex.salt (Regex.scat (a.deriv c) b) (b.deriv c)
    else Regex.scat (a.deriv c) b
  | .alt a b, c => Regex.salt (a.deriv c) (b.deriv c)
  | .star r, c => Regex.scat (r.deriv c) (.star r)

/-- Whole-word match of `r` against a character list. -/
def Regex.rmatch (r : Regex) (cs : List Char) : Bool :=
  (cs.foldl Regex.deriv r).nullable

/-- Any single character (what precedes a match found mid-string). -/
def Regex.anyChar : Regex := .pred (fun _ => true)

/-- Literal character. -/
def Regex.chr (c : Char) : Regex := .pred (fun x => x = c)

/-- Literal string. -/
def Regex.strRe (s : String) : Regex :=
  (s.toList.map Regex.chr).foldr Regex.cat .eps

/-- Concatenation of a list of regexes. -/
def Regex.seqs (rs : List Regex) : Regex := rs.foldr Regex.cat .eps

/-- `r+`. -/
def Regex.rplus (r : Regex) : Regex := .cat r (.star r)

/-- `r?`. -/
def Regex.opt (r : Regex) : Regex := .alt r .eps

/-- `\s`: the JavaScript whitespace class (ASCII part; the patterns and
the commands of interest contain no Unicode spaces). -/
def Regex.ws : Regex :=
  .pred (fun c => c = ' ' || c = '\t' || c = '\n' || c = '\r' || c = '\x0b' || c = '\x0c')

/-- `\s*`. -/
def Regex.wsStar : Regex := .star Regex.ws

/-- `\s+`. -/
def Regex.wsPlus : Regex := Regex.rplus Regex.ws

/-- `.` in a JavaScript regex: any character except a line terminator. -/
def Regex.dot : Regex :=
  .pred (fun c => c ≠ '\n' && c ≠ '\r' && c ≠ '\u2028' && c ≠ '\u2029')

/-- `[a-z]` under the `i` flag (input is lowercased before matching). -/
def Regex.lowerAlpha : Regex := .pred (fun c => 'a' ≤ c && c ≤ 'z')

/-- `(-[rf]+\s+)` — one `-rf`-style flag group followed by whitespace. -/
def Regex.rfFlag : Regex :=
  Regex.seqs [Regex.chr '-', Regex.rplus (.pred (fun c => c = 'r' || c = 'f')), Regex.wsPlus]

/-- One entry of `BLOCKED_COMMAND_PATTERNS`: the literal source text of
the JavaScript regex (as produced by `RegExp.prototype.toString`), its
body as a syntax tree, and whether it ends with the `$` anchor. -/
structure BlockedPattern where
  src : String
  body : Regex
  anchoredEnd : Bool

/-- ASCII lowercasing, as `String.prototype.toLowerCase` acts on the
command strings at hand (embedding of the `i` flag). -/
def lowerChar (c : Char) : Char :=
  if 'A' ≤ c ∧ c ≤ 'Z' then Char.ofNat (c.toNat + 32) else c

/-- `pattern.test(command)`: search for a match at any position,
respecting a trailing `$` anchor. -/
def BlockedPattern.test (p : BlockedPattern) (command : String) : Bool :=
  let r := Regex.cat (.star Regex.anyChar)
    (if p.anchoredEnd then p.body else Regex.cat p.body (.star Regex.anyChar))
  r.rmatch (command.toList.map lowerChar)

/-- `AgentManager.BLOCKED_COMMAND_PATTERNS` (`agent.ts`), in source order. -/
def BLOCKED_COMMAND_PATTERNS : List BlockedPattern := [
  -- Recursive force delete on root, home, or wildcard
  ⟨"/rm\\s+(-[rf]+\\s+)*\\s*\\/\\s*$/i",
    Regex.seqs [Regex.strRe "rm", Regex.wsPlus, .star Regex.rfFlag, Regex.wsStar,
      Regex.chr '/', Regex.wsStar], true⟩,
  ⟨"/rm\\s+(-[rf]+\\s+)*\\s*\\/\\s*[^/]/i",
    Regex.seqs [Regex.strRe "rm", Regex.wsPlus, .star Regex.rfFlag, Regex.wsStar,
      Regex.chr '/', Regex.wsStar, .pred (fun c => c ≠ '/')], false⟩,
  ⟨"/rm\\s+(-[rf]+\\s+)*\\s*~\\s*$/i",
    Regex.seqs [Regex.strRe "rm", Regex.wsPlus, .star Regex.rfFlag, Regex.wsStar,
      Regex.chr '~', Regex.wsStar], true⟩,
  ⟨"/rm\\s+(-[rf]+\\s+)*\\s*\\$HOME\\s*$/i",
    Regex.seqs [Regex.strRe "rm", Regex.wsPlus, .star Regex.rfFlag, Regex.wsStar,
      Regex.strRe "$home", Regex.wsStar], true⟩,
  ⟨"/rm\\s+(-[rf]+\\s+)*\\s*\\*\\s*$/i",
    Regex.seqs [Regex.strRe "rm", Regex.wsPlus, .star Regex.rfFlag, Regex.wsStar,
      Regex.chr '*', Regex.wsStar], true⟩,
  -- Prevent operations on SSH keys and credentials
  ⟨"/\\/\\.ssh\\//i", Regex.strRe "/.ssh/", false⟩,
  ⟨"/\\/\\.gnupg\\//i", Regex.strRe "/.gnupg/", false⟩,
  ⟨"/\\/\\.aws\\//i", Regex.strRe "/.aws/", false⟩,
  ⟨"/\\/\\.kube\\//i", Regex.strRe "/.kube/", false⟩,
  -- Prevent modifying shell configs outside project
  ⟨"/>\\s*~\\/\\.[a-z]/i",
    Regex.seqs [Regex.chr '>', Regex.wsStar, Regex.strRe "~/.", Regex.lowerAlpha], false⟩,
  ⟨"/>>\\s*~\\/\\.[a-z]/i",
    Regex.seqs [Regex.strRe ">>", Regex.wsStar, Regex.strRe "~/.", Regex.lowerAlpha], false⟩,
  -- Prevent chmod 777 on sensitive paths
  ⟨"/chmod\\s+777\\s+\\//i",
    Regex.seqs [Regex.strRe "chmod", Regex.wsPlus, Regex.strRe "777", Regex.wsPlus,
      Regex.chr '/'], false⟩,
  -- Prevent curl/wget piped to shell on unknown URLs (basic check)
  ⟨"/curl.*\\|\\s*(ba)?sh/i",
    Regex.seqs [Regex.strRe "curl", .star Regex.dot, Regex.chr '|', Regex.wsStar,
      Regex.opt (Regex.strRe "ba"), Regex.strRe "sh"], false⟩,
  ⟨"/wget.*\\|\\s*(ba)?sh/i",
    Regex.seqs [Regex.strRe "wget", .star Regex.dot, Regex.chr '|', Regex.wsStar,
      Regex.opt (Regex.strRe "ba"), Regex.strRe "sh"], false⟩,
  -- Prevent dd to block devices
  ⟨"/dd\\s+.*of=\\/dev\\//i",
    Regex.seqs [Regex.strRe "dd", Regex.wsPlus, .star Regex.dot,
      Regex.strRe "of=/dev/"], false⟩,
  -- Prevent mkfs on devices
  ⟨"/mkfs\\s+/i", Regex.seqs [Regex.strRe "mkfs", Regex.wsPlus], false⟩,
  -- Prevent fork bombs
  ⟨"/:\\(\\)\\s*\\\x7b\\s*:\\|:&\\s*\\\x7d\\s*;/",
    Regex.seqs [Regex.strRe ":()", Regex.wsStar, Regex.chr '\x7b', Regex.wsStar,
      Regex.strRe ":|:&", Regex.wsStar, Regex.chr '\x7d', Regex.wsStar,
      Regex.chr ';'], false⟩]

/-- `AgentManager.isCommandBlocked` (`agent.ts`): the first matching
deny-list pattern yields the block reason, no match yields `null`.  This
is the `checkCommand` gate applied by `executeBash` before running any
agent-requested shell command. -/
def isCommandBlocked (command : String) : Option String :=
  (BLOCKED_COMMAND_PATTERNS.find? (fun p => p.test command)).map
    (fun p => "Command blocked for safety: matches pattern " ++ p.src)

example : (isCommandBlocked "rm -rf /").isSome = true := by decide
example : isCommandBlocked "ls -la" = none := by decide

/-!
## `agent.ts`: path traversal protection (`validatePath`)

`validatePath` computes `resolve(workingDir, filePath)` and rejects when
`relative(workingDir, fullPath)` starts with `".."` (or is absolute,
which `path.relative` never produces on POSIX).  POSIX paths are embedded
as segment lists: `splitPath` splits on `/`, `normAbs` performs the
`..`/`.` normalization that `path.resolve` applies to an absolute path,
and `relSegs` is `path.relative` on normalized absolute segment lists
(longest common prefix, then one `..` per remaining source segment). -/

/-- Split a POSIX path into its non-empty segments. -/
def splitPathAux : List Char → List Char → List String
  | [], cur => [String.mk cur.reverse]
  | c :: rest, cur =>
    if c = '/' then String.mk cur.reverse :: splitPathAux rest []
    else splitPathAux rest (c :: cur)

def splitPath (s : String) : List String :=
  (splitPathAux s.toList []).filter (fun seg => seg ≠ "")

/-- Normalization of an absolute path's segments (`path.resolve`): `.`
disappears, `..` removes the preceding segment (or disappears at the
root). -/
def normAbs (segs : List String) : List String :=
  (segs.foldl (fun acc seg =>
    if seg = "." ∨ seg = "" then acc
    else if seg = ".." then acc.dropLast
    else acc ++ [seg]) [])

/-- `path.relative` on normalized absolute segment lists: drop the common
prefix, then one `..` per remaining segment of the source. -/
def relSegs : List String → List String → List String
  | [], toSegs => toSegs
  | f :: fs, [] => (f :: fs).map (fun _ => "..")
  | f :: fs, t :: ts =>
    if f = t then relSegs fs ts
    else ((f :: fs).map (fun _ => "..")) ++ (t :: ts)

/-- The rejection test of `validatePath`:
`relativePath.startsWith("..")` on the joined segments. -/
def relStartsDotDot : List String → Bool
  | [] => false
  | seg :: _ => strStartsWith seg ".."

/-- Join segments with `/` separators. -/
def joinSlash : List String → String
  | [] => ""
  | [seg] => seg
  | seg :: rest => seg ++ "/" ++ joinSlash rest

/-- `AgentManager.validatePath` (`agent.ts`): resolve `filePath` against
the working directory, reject when the relative form escapes it,
otherwise return the resolved absolute path.  (The source's second
rejection test, `resolve(relativePath) === relativePath`, detects an
absolute relative-form, which `path.relative` cannot produce on POSIX.) -/
def validatePath (workingDir filePath : String) : Except String String :=
  let fullSegs :=
    if strStartsWith filePath "/" then normAbs (splitPath filePath)
    else normAbs (splitPath workingDir ++ splitPath filePath)
  let relativePath := relSegs (normAbs (splitPath workingDir)) fullSegs
  if relStartsDotDot relativePath then
    .error ("Path traversal detected: '" ++ filePath ++
      "' resolves outside the project directory. Access denied.")
  else
    .ok ("/" ++ joinSlash fullSegs)

/-- The spec's wording for the `resolvePath` acceptance condition: the
absolute path obtained by joining `filePath` against `workingDir` is a
descendant of `workingDir` (the working directory's segments are a prefix
of the resolved path's segments).  Stated from the spec, for comparison
with `validatePath`. -/
def specDescendant (workingDir filePath : String) : Bool :=
  (normAbs (splitPath workingDir)).isPrefixOf
    (normAbs (splitPath workingDir ++ splitPath filePath))

deriving instance DecidableEq for Except

/-- Is an `Except` an error? -/
def Except.isErr {ε α : Type} : Except ε α → Bool
  | .error _ => true
  | .ok _ => false

/-!
## The version-control retry loop

Modelled from the spec: `git.ts` is not among the sources; per the spec
(§4.4) and the design document every adapter call runs in a retry loop of
up to 5 attempts with exponential backoff starting at 100ms, retrying
only when the error text indicates git lock contention. -/

/-- Modelled from the spec: does an error message indicate lock
contention?  The design document names the matched texts: `index.lock`,
`Unable to create`, `Another git process`. -/
def hasSubstr (hay needle : List Char) : Bool :=
  if needle.isPrefixOf hay then true
  else match hay with
    | [] => false
    | _ :: rest => hasSubstr rest needle

def isLockError (msg : String) : Bool :=
  ["index.lock", "Unable to create", "Another git process"].any
    (fun pat => hasSubstr msg.toList pat.toList)

/-- Modelled from the spec: the retry loop of the version-control
adapter.  `op n` is the outcome of the n-th attempt (1-based);
the result is paired with the list of backoff sleeps performed.
Retries only lock-contention errors, at most `maxAttempts` attempts,
doubling the delay after each retry. -/
def withRetryGo {α : Type} (op : Nat → Except String α) (maxAttempts : Nat)
    (attempt : Nat) (delayMs : Nat) : (fuel : Nat) → Except String α × List Nat
  | 0 => (op attempt, [])
  | fuel + 1 =>
    match op attempt with
    | .ok a => (.ok a, [])
    | .error e =>
      if isLockError e ∧ attempt < maxAttempts then
        let (r, sleeps) := withRetryGo op maxAttempts (attempt + 1) (delayMs * 2) fuel
        (r, delayMs :: sleeps)
      else (.error e, [])

/-- Modelled from the spec: `withRetry` with the spec's constants — up to
5 attempts, backoff starting at 100ms. -/
def withRetry {α : Type} (op : Nat → Except String α) : Except String α × List Nat :=
  withRetryGo op 5 1 100 5

example : validatePath "/work" "src/app.go" = .ok "/work/src/app.go" := by decide
example : (validatePath "/work" "../../etc/passwd").isErr = true := by decide
example : (validatePath "/work" "..x").isErr = true := by decide
example : specDescendant "/work" "..x" = true := by decide

/-!
## Shared concrete instances for evaluating the embeddings
-/

/-- A git world in which every operation succeeds and the tree is clean. -/
def gitTrivial : Git Unit where
  isDirty := fun s => .ok false s
  getCurrentBranch := fun s => .ok "main" s
  autoCommit := fun _ s => .ok none s
  createBranch := fun _ s => .ok () s
  createBranchFrom := fun _ _ s => .ok () s
  checkout := fun _ s => .ok () s
  merge := fun _ s => .ok () s
  push := fun _ _ s => .ok () s
  getLatestCommitHash := fun s => .ok "h" s

/-- Like `gitTrivial` but the merge step fails with a (non-lock) merge
conflict. -/
def gitMergeConflict : Git Unit :=
  { gitTrivial with merge := fun _ s => .error "merge conflict" s }

/-- A sample idle registered thread. -/
def sampleThread : Thread :=
  { id := "a"
    branchName := "feat/vibe-a"
    createdAt := 0
    status := .IDLE
    history := []
    lastCommitHash := none
    errorMessage := none
    operation := none }

/-- A sample registry holding `sampleThread` under its id. -/
def sampleReg : Registry := [("a", sampleThread)]

/-!
## Registry helper lemmas
-/

theorem Registry.mem_of_mem_delete (reg : Registry) (tid : String) :
    ∀ p ∈ Registry.delete reg tid, p ∈ reg := by
  induction reg with
  | nil => intro p hp; exact absurd hp (by simp [Registry.delete])
  | cons q rest ih =>
    obtain ⟨k, v⟩ := q
    intro p hp
    by_cases h : k = tid
    · simp only [Registry.delete, if_pos h] at hp
      exact List.mem_cons_of_mem _ hp
    · simp only [Registry.delete, if_neg h, List.mem_cons] at hp
      rcases hp with hp | hp
      · exact hp ▸ List.mem_cons_self _ _
      · exact List.mem_cons_of_mem _ (ih p hp)

theorem Registry.keys_delete_not_mem (reg : Registry) (tid : String)
    (hnd : (reg.map (fun p => p.1)).Nodup) :
    tid ∉ (Registry.delete reg tid).map (fun p => p.1) := by
  induction reg with
  | nil => simp [Registry.delete]
  | cons q rest ih =>
    obtain ⟨k, v⟩ := q
    simp only [List.map_cons, List.nodup_cons] at hnd
    by_cases h : k = tid
    · subst h
      simpa [Registry.delete] using hnd.1
    · simp only [Registry.delete, if_neg h, List.map_cons, List.mem_cons]
      push_neg
      exact ⟨fun he => h he.symm, ih hnd.2⟩

theorem getAllThreads_delete_id_ne (reg : Registry) (tid : String) (hwf : reg.WF) :
    ∀ th ∈ getAllThreads (Registry.delete reg tid), th.id ≠ tid := by
  intro th hth
  simp only [getAllThreads, List.mem_map] at hth
  obtain ⟨p, hp, rfl⟩ := hth
  have hpk : p.2.id = p.1 := hwf.2 p (Registry.mem_of_mem_delete reg tid p hp)
  rw [hpk]
  intro he
  exact Registry.keys_delete_not_mem reg tid hwf.1
    (List.mem_map.mpr ⟨p, hp, he⟩)

/-!
## Claims
-/

/-- C1 (code bug in `sendMessage`): `threads.ts` guards `sendMessage` only
by `status === "RUNNING"` and omits the `operation !== null` check its own
design document prescribes for the chat endpoint, so a `sendMessage`
issued while a background operation is in flight (here: a thread still
provisioning, `operation = "creating"`, `status = "IDLE"`) is accepted —
it returns the `RUNNING` acknowledgment and mutates the session — instead
of being rejected with a conflict error leaving the session untouched. -/
theorem sendMessage_accepts_during_creating_operation :
    (sendMessage [("a", { sampleThread with operation := some .creating })] "a").2
        = .ok .RUNNING ∧
    Registry.get
        (sendMessage [("a", { sampleThread with operation := some .creating })] "a").1 "a"
        = some { sampleThread with operation := some .creating, status := .RUNNING } ∧
    ({ sampleThread with operation := some .creating } : Thread).operation ≠ none ∧
    ({ sampleThread with operation := some .creating } : Thread).status ≠ .RUNNING := by
  decide

/-- C2: a merge whose background task succeeds removes the session from
the registry (`get` yields `NotFound` and it is absent from `list()`),
and a merge whose background task fails leaves the session present with
`status = Error`, `operation = None` and the error message recorded. -/
theorem mergeThreadAsync_removes_on_success_keeps_error_on_failure
    (σ : Type) (git : Git σ) (reg : Registry) (tid : String) (t : Thread) (s : σ)
    (hwf : reg.WF) :
    (∀ u s', mergeThreadAsyncRun git t s = .ok u s' →
      Registry.get (mergeThreadAsync git reg tid t s).1 tid = none ∧
      ∀ th ∈ getAllThreads (mergeThreadAsync git reg tid t s).1, th.id ≠ tid) ∧
    (∀ msg s', mergeThreadAsyncRun git t s = .error msg s' →
      Registry.get (mergeThreadAsync git reg tid t s).1 tid =
        some { t with operation := none, status := .ERROR, errorMessage := some msg }) := by
  constructor
  · intro u s' hrun
    simp only [mergeThreadAsync, hrun]
    exact ⟨Registry.get_delete_self reg tid hwf.1,
      getAllThreads_delete_id_ne reg tid hwf⟩
  · intro msg s' hrun
    simp only [mergeThreadAsync, hrun]
    exact Registry.get_set_self reg tid _

/-- C2 witness: with a clean trivial git world the merge background task
succeeds and the sample session disappears from the registry; with a git
world whose merge fails the session stays with the error recorded. -/
theorem mergeThreadAsync_outcome_witness :
    (Registry.get (mergeThreadAsync gitTrivial sampleReg "a" sampleThread ()).1 "a"
        = none) ∧
    (Registry.get (mergeThreadAsync gitMergeConflict sampleReg "a" sampleThread ()).1 "a"
        = some { sampleThread with
                  operation := none
                  status := ThreadStatus.ERROR
                  errorMessage := some "merge conflict" }) := by
  have h1 := mergeThreadAsync_removes_on_success_keeps_error_on_failure
    Unit gitTrivial sampleReg "a" sampleThread () (by decide)
  have h2 := mergeThreadAsync_removes_on_success_keeps_error_on_failure
    Unit gitMergeConflict sampleReg "a" sampleThread () (by decide)
  exact ⟨(h1.1 () () rfl).1, h2.2 "merge conflict" () rfl⟩

/-- Like `gitTrivial` but branch creation fails. -/
def gitCreateBranchFails : Git Unit :=
  { gitTrivial with
      createBranch := fun _ s => .error "branch exists" s
      createBranchFrom := fun _ _ s => .error "branch exists" s }

/-- C3: `createThread` returns synchronously — it takes no git interface,
so no version-control work can execute before it returns — allocating the
id and the branch name `"feat/vibe-" + id.slice(0, 8)` and inserting a
placeholder session with `operation = "creating"`; the background
provisioning task then sets `operation` to `null` on success, or
`status = "ERROR"` with the error message recorded on failure. -/
theorem createThread_placeholder_then_async_outcome
    (reg : Registry) (threadId : String) (now : Nat) :
    ((createThread reg threadId now).1.id = threadId ∧
     (createThread reg threadId now).1.branchName = "feat/vibe-" ++ strTake threadId 8 ∧
     (createThread reg threadId now).1.createdAt = now ∧
     (createThread reg threadId now).1.status = .IDLE ∧
     (createThread reg threadId now).1.history = [] ∧
     (createThread reg threadId now).1.operation = some .creating ∧
     Registry.get (createThread reg threadId now).2 threadId =
       some (createThread reg threadId now).1) ∧
    (∀ (σ : Type) (git : Git σ) (reg2 : Registry) (t : Thread)
        (baseRef : Option String) (s : σ),
      (∀ u s', createThreadAsyncRun git threadId t.branchName baseRef s = .ok u s' →
        Registry.get (createThreadAsync git reg2 threadId t baseRef s).1 threadId =
          some { t with operation := none }) ∧
      (∀ msg s', createThreadAsyncRun git threadId t.branchName baseRef s = .error msg s' →
        Registry.get (createThreadAsync git reg2 threadId t baseRef s).1 threadId =
          some { t with
                  operation := none
                  status := ThreadStatus.ERROR
                  errorMessage := some msg })) := by
  refine ⟨⟨rfl, rfl, rfl, rfl, rfl, rfl, Registry.get_set_self reg threadId _⟩, ?_⟩
  intro σ git reg2 t baseRef s
  constructor
  · intro u s' hrun
    simp only [createThreadAsync, hrun]
    exact Registry.get_set_self reg2 threadId _
  · intro msg s' hrun
    simp only [createThreadAsync, hrun]
    exact Registry.get_set_self reg2 threadId _

/-- C3 witness: creating a thread with id `"abcdefgh-42"` registers the
placeholder under `feat/vibe-abcdefgh`; a clean error-free provisioning
clears `operation`, a failing branch creation records the error. -/
theorem createThread_placeholder_witness :
    ((createThread [] "abcdefgh-42" 7).1.branchName = "feat/vibe-abcdefgh" ∧
     (createThread [] "abcdefgh-42" 7).1.operation = some .creating) ∧
    (Registry.get
        (createThreadAsync gitTrivial [] "abcdefgh-42"
          (createThread [] "abcdefgh-42" 7).1 none ()).1 "abcdefgh-42" =
      some { (createThread [] "abcdefgh-42" 7).1 with operation := none }) ∧
    (Registry.get
        (createThreadAsync gitCreateBranchFails [] "abcdefgh-42"
          (createThread [] "abcdefgh-42" 7).1 none ()).1 "abcdefgh-42" =
      some { (createThread [] "abcdefgh-42" 7).1 with
              operation := none
              status := ThreadStatus.ERROR
              errorMessage := some "branch exists" }) := by
  have h := createThread_placeholder_then_async_outcome [] "abcdefgh-42" 7
  refine ⟨⟨?_, h.1.2.2.2.2.2.1⟩, ?_, ?_⟩
  · exact h.1.2.1.trans (by decide)
  · exact (h.2 Unit gitTrivial [] (createThread [] "abcdefgh-42" 7).1 none ()).1 () () rfl
  · exact (h.2 Unit gitCreateBranchFails [] (createThread [] "abcdefgh-42" 7).1 none ()).2
      "branch exists" () rfl

/-- C4: the provisioning task creates the session branch from the current
`HEAD` when no base reference is given, and from the explicit base
reference when the caller supplies one (`POST /threads` forwards the
optional `baseBranch`).  Stated over the spec-modelled adapter semantics
`gitSem`, whose creation log records the base each branch was cut from. -/
theorem createThreadAsyncRun_branch_base (threadId branchName : String)
    (baseRef : Option String) (g : GitState) :
    ∀ u g', createThreadAsyncRun gitSem threadId branchName baseRef g = .ok u g' →
      (baseRef = none → (branchName, g.currentBranch) ∈ g'.created) ∧
      (∀ base, baseRef = some base → (branchName, base) ∈ g'.created) := by
  obtain ⟨cb, dirty, commits, branches, created⟩ := g
  cases dirty <;> cases baseRef <;>
    · intro u g' hrun
      cases hrun
      exact ⟨fun hb => by simp_all, fun base hb => by simp_all⟩

/-- C4 witness: provisioning with no base reference cuts the branch from
the current `HEAD` (`main`); provisioning with base reference `"dev"`
cuts it from `"dev"`. -/
theorem createThreadAsyncRun_branch_base_witness :
    (("feat/vibe-x", "main") ∈
      (match createThreadAsyncRun gitSem "x" "feat/vibe-x" none
          ⟨"main", false, 0, ["main"], []⟩ with
        | .ok _ g' => g'.created
        | .error _ _ => []) ) ∧
    (("feat/vibe-x", "dev") ∈
      (match createThreadAsyncRun gitSem "x" "feat/vibe-x" (some "dev")
          ⟨"main", false, 0, ["main"], []⟩ with
        | .ok _ g' => g'.created
        | .error _ _ => [])) := by
  constructor
  · have h := createThreadAsyncRun_branch_base "x" "feat/vibe-x" none
      ⟨"main", false, 0, ["main"], []⟩ ()
      ⟨"feat/vibe-x", false, 0, ["feat/vibe-x", "main"], [("feat/vibe-x", "main")]⟩ rfl
    exact (h.1 rfl)
  · have h := createThreadAsyncRun_branch_base "x" "feat/vibe-x" (some "dev")
      ⟨"main", false, 0, ["main"], []⟩ ()
      ⟨"feat/vibe-x", false, 0, ["feat/vibe-x", "main"], [("feat/vibe-x", "dev")]⟩ rfl
    exact (h.2 "dev" rfl)

/-- C5: the command safety gate denies `rm -rf /` and `rm -rf ~`, each
with a reason citing the deny-list pattern it matched, and allows
`ls -la`, which matches no deny-list pattern. -/
theorem isCommandBlocked_examples :
    isCommandBlocked "rm -rf /" =
      some ("Command blocked for safety: matches pattern " ++
        "/rm\\s+(-[rf]+\\s+)*\\s*\\/\\s*$/i") ∧
    isCommandBlocked "rm -rf ~" =
      some ("Command blocked for safety: matches pattern " ++
        "/rm\\s+(-[rf]+\\s+)*\\s*~\\s*$/i") ∧
    isCommandBlocked "ls -la" = none := by
  decide

/-- When the working directory's segments are not a prefix of the
resolved target's segments, `path.relative` emits a leading `..`
segment, so the `startsWith("..")` test fires. -/
theorem relSegs_escapes (W R : List String) (h : W.isPrefixOf R = false) :
    relStartsDotDot (relSegs W R) = true := by
  induction W generalizing R with
  | nil => simp [List.isPrefixOf] at h
  | cons f fs ih =>
    cases R with
    | nil =>
      simp only [relSegs, List.map_cons, relStartsDotDot]
      decide
    | cons t ts =>
      by_cases hft : f = t
      · subst hft
        simp only [List.isPrefixOf, beq_self_eq_true, Bool.true_and] at h
        simp only [relSegs, if_pos rfl]
        exact ih ts h
      · simp only [relSegs, if_neg hft, List.map_cons, List.cons_append, relStartsDotDot]
        decide

/-- C6 (counterexample to the claim as stated): `validatePath` rejects
the relative path `"..x"` although the path it resolves to,
`workDir/..x`, is a descendant of the working directory — a file whose
name merely begins with two dots trips the string-level
`startsWith("..")` test.  So rejection is not *exactly* "resolved path
not a descendant". -/
theorem validatePath_rejects_a_descendant :
    (validatePath "/work" "..x").isErr = true ∧
    specDescendant "/work" "..x" = true := by
  decide

/-- C6 (amended): `validatePath` rejects every relative path whose
resolution escapes the working directory (non-descendant implies
rejection; the converse fails on names beginning with `..`, see the
counterexample); in particular `"../../etc/passwd"` is rejected and
`"src/app.go"` resolves to `workDir/src/app.go`. -/
theorem validatePath_rejects_nondescendants :
    (∀ workDir p, strStartsWith p "/" = false →
      specDescendant workDir p = false →
      (validatePath workDir p).isErr = true) ∧
    (validatePath "/work" "../../etc/passwd").isErr = true ∧
    validatePath "/work" "src/app.go" = .ok "/work/src/app.go" := by
  refine ⟨?_, by decide, by decide⟩
  intro workDir p h1 h2
  unfold specDescendant at h2
  simp only [validatePath, h1, Bool.false_eq_true, if_false]
  rw [relSegs_escapes _ _ h2]
  simp [Except.isErr]

/-- C6 witness: the general rejection statement applied to the concrete
escape `"../../etc/passwd"` from `"/a"`. -/
theorem validatePath_rejects_nondescendants_witness :
    strStartsWith "../../etc/passwd" "/" = false ∧
    specDescendant "/a" "../../etc/passwd" = false ∧
    (validatePath "/a" "../../etc/passwd").isErr = true := by
  refine ⟨by decide, by decide, ?_⟩
  exact validatePath_rejects_nondescendants.1 "/a" "../../etc/passwd"
    (by decide) (by decide)

/-- Closed form of the agent loop: it appends exactly the turns of the
`tool_use` iterations, plus the final assistant turn when the loop ends
normally, and reports the error of a failing iteration. -/
theorem agentLoop_result (steps : List AgentStep) (t : Thread)
    (outcome : Except String (List ContentBlock)) :
    agentLoop t steps outcome =
      ({ t with history := t.history ++ agentTurns steps ++
          (match outcome with
            | .ok c => [⟨Role.assistant, .blocks c⟩]
            | .error _ => []) },
        match outcome with | .ok _ => none | .error m => some m) := by
  induction steps generalizing t with
  | nil => cases outcome <;> simp [agentLoop, agentTurns]
  | cons st rest ih =>
    obtain ⟨content, results⟩ := st
    simp [agentLoop, agentTurns, ih]

/-- The history written by `processMessage`: the prior history, then the
user turn, then the turns produced by the agent loop. -/
theorem processMessage_history (σ : Type) (git : Git σ) (t : Thread) (msg : String)
    (steps : List AgentStep) (outcome : Except String (List ContentBlock)) (s : σ) :
    (processMessage git t msg steps outcome s).1.history =
      t.history ++ ⟨Role.user, .text msg⟩ ::
        (agentTurns steps ++ (match outcome with
          | .ok c => [⟨Role.assistant, .blocks c⟩]
          | .error _ => [])) := by
  cases outcome with
  | error m => simp [processMessage, agentLoop_result]
  | ok c =>
    cases hac : git.autoCommit ("Auto: " ++ messageSnippet msg) s with
    | ok hsh s' => cases hsh <;> simp [processMessage, agentLoop_result, hac]
    | error m s' => simp [processMessage, agentLoop_result, hac]

/-- C7: session history is append-only.  `processMessage` only ever
extends the existing history; when the agent loop throws, the appended
user and assistant turns are retained (not rolled back) while
`status = "ERROR"` is set and the message recorded; and no other
background task or entry point (`merge`, `push`, `switchTo`, the
provisioning task, `sendMessage`, or the shared operation guard) ever
stores a thread whose history differs from the one it was given. -/
theorem history_append_only (σ : Type) (git : Git σ) (t : Thread) (msg : String)
    (steps : List AgentStep) (outcome : Except String (List ContentBlock)) (s : σ) :
    (t.history <+: (processMessage git t msg steps outcome s).1.history) ∧
    (∀ m, outcome = .error m →
      (processMessage git t msg steps outcome s).1.history =
        t.history ++ ⟨Role.user, .text msg⟩ :: agentTurns steps ∧
      (processMessage git t msg steps outcome s).1.status = .ERROR ∧
      (processMessage git t msg steps outcome s).1.errorMessage = some m) ∧
    (∀ reg tid, reg.WF → ∀ th,
      Registry.get (mergeThreadAsync git reg tid t s).1 tid = some th →
        th.history = t.history) ∧
    (∀ reg tid th,
      Registry.get (pushThreadAsync git reg tid t s).1 tid = some th →
        th.history = t.history) ∧
    (∀ reg tid th,
      Registry.get (switchToThreadAsync git reg tid t s).1 tid = some th →
        th.history = t.history) ∧
    (∀ reg tid baseRef th,
      Registry.get (createThreadAsync git reg tid t baseRef s).1 tid = some th →
        th.history = t.history) ∧
    (∀ reg tid t0, Registry.get reg tid = some t0 → ∀ th,
      Registry.get (sendMessage reg tid).1 tid = some th →
        th.history = t0.history) ∧
    (∀ reg tid op runningMsg t0, Registry.get reg tid = some t0 → ∀ th,
      Registry.get (guardAndMark reg tid op runningMsg).1 tid = some th →
        th.history = t0.history) := by
  refine ⟨?_, ?_, ?_, ?_, ?_, ?_, ?_, ?_⟩
  · rw [processMessage_history]
    exact ⟨_, rfl⟩
  · rintro m rfl
    rw [processMessage_history]
    refine ⟨by simp, ?_, ?_⟩ <;>
      simp [processMessage, agentLoop_result]
  · intro reg tid hwf th hget
    rcases hrun : mergeThreadAsyncRun git t s with _ | ⟨m, s2⟩
    · rw [mergeThreadAsync] at hget
      rw [hrun] at hget
      rw [Registry.get_delete_self reg tid hwf.1] at hget
      cases hget
    · rw [mergeThreadAsync] at hget
      rw [hrun, Registry.get_set_self] at hget
      cases hget
      rfl
  · intro reg tid th hget
    rcases hpre : pushThreadAsyncPre git t s with ⟨hu, s2⟩ | ⟨m, s2⟩
    · cases hu <;>
        rcases hpush : git.push "origin" t.branchName s2 with ⟨u3, s3⟩ | ⟨m2, s3⟩ <;>
          · simp only [pushThreadAsync, hpre, hpush, Registry.get_set_self,
              Option.some.injEq] at hget
            rw [← hget]
    · simp only [pushThreadAsync, hpre, Registry.get_set_self,
        Option.some.injEq] at hget
      rw [← hget]
  · intro reg tid th hget
    rw [switchToThreadAsync] at hget
    rcases hrun : switchToThreadAsyncRun git tid t s with _ | ⟨m, s2⟩ <;>
      · rw [hrun, Registry.get_set_self] at hget
        cases hget
        rfl
  · intro reg tid baseRef th hget
    rw [createThreadAsync] at hget
    rcases hrun : createThreadAsyncRun git tid t.branchName baseRef s with _ | ⟨m, s2⟩ <;>
      · rw [hrun, Registry.get_set_self] at hget
        cases hget
        rfl
  · intro reg tid t0 hget0 th hget
    simp only [sendMessage, hget0] at hget
    split at hget
    · rw [hget0] at hget
      cases hget
      rfl
    · rw [Registry.get_set_self] at hget
      cases hget
      rfl
  · intro reg tid op runningMsg t0 hget0 th hget
    simp only [guardAndMark, hget0] at hget
    split at hget
    · rw [hget0] at hget
      cases hget
      rfl
    · split at hget
      · rw [hget0] at hget
        cases hget
        rfl
      · rw [Registry.get_set_self] at hget
        cases hget
        rfl

/-- C7 witness: a send whose agent loop throws `"boom"` on the sample
thread retains the appended user turn with `status = "ERROR"`, and a
failed merge stores the thread with its history intact. -/
theorem history_append_only_witness :
    ((processMessage gitMergeConflict sampleThread "hi" [] (.error "boom") ()).1.history
        = [⟨Role.user, .text "hi"⟩]) ∧
    ((processMessage gitMergeConflict sampleThread "hi" [] (.error "boom") ()).1.status
        = .ERROR) ∧
    ((processMessage gitMergeConflict sampleThread "hi" [] (.error "boom") ()).1.errorMessage
        = some "boom") ∧
    (({ sampleThread with
          operation := none
          status := ThreadStatus.ERROR
          errorMessage := some "merge conflict" } : Thread).history
        = sampleThread.history) := by
  have h := history_append_only Unit gitMergeConflict sampleThread "hi" []
    (.error "boom") ()
  obtain ⟨-, herr, hmerge, -⟩ := h
  have he := herr "boom" rfl
  refine ⟨?_, he.2.1, he.2.2, ?_⟩
  · rw [he.1]
    decide
  · exact hmerge sampleReg "a" (by decide)
      { sampleThread with
          operation := none
          status := ThreadStatus.ERROR
          errorMessage := some "merge conflict" }
      (by decide)

/-- C8: the retry loop makes up to 5 attempts with exponential backoff
starting at 100ms and retries only lock-contention errors: two
lock-contention failures followed by a success return the successful
result after sleeping 100ms then 200ms; a non-lock error propagates
immediately with no retry sleeps; and lock contention on every attempt
stops after the 5th attempt having slept 100, 200, 400, 800ms. -/
theorem withRetry_behavior (α : Type) (op : Nat → Except String α) (v : α) (e : String) :
    (∀ e1 e2, op 1 = .error e1 → isLockError e1 = true →
      op 2 = .error e2 → isLockError e2 = true → op 3 = .ok v →
      withRetry op = (.ok v, [100, 200])) ∧
    (op 1 = .error e → isLockError e = false → withRetry op = (.error e, [])) ∧
    ((∀ n, op n = .error e) → isLockError e = true →
      withRetry op = (.error e, [100, 200, 400, 800])) := by
  refine ⟨?_, ?_, ?_⟩
  · intro e1 e2 h1 hl1 h2 hl2 h3
    simp [withRetry, withRetryGo, h1, h2, h3, hl1, hl2]
  · intro h1 hl1
    simp [withRetry, withRetryGo, h1, hl1]
  · intro hall hl
    simp [withRetry, withRetryGo, hall 1, hall 2, hall 3, hall 4, hall 5, hl]

/-- C8 witness: a call failing twice with a git `index.lock` contention
error and succeeding on the third attempt returns the success with
backoff sleeps 100ms and 200ms; a `merge conflict` error is not retried. -/
theorem withRetry_behavior_witness :
    withRetry (fun n => if n ≤ 2 then
        .error "fatal: Unable to create '/repo/.git/index.lock': File exists."
      else .ok 42) = (.ok 42, [100, 200]) ∧
    withRetry (fun _ => (.error "merge conflict" : Except String Nat)) =
      (.error "merge conflict", []) := by
  constructor
  · exact (withRetry_behavior Nat _ 42 "").1
      "fatal: Unable to create '/repo/.git/index.lock': File exists."
      "fatal: Unable to create '/repo/.git/index.lock': File exists."
      rfl (by decide) rfl (by decide) rfl
  · exact (withRetry_behavior Nat _ 42 "merge conflict").2.1 rfl (by decide)

/-- Evaluation of one full `switchTo` call on a session that passes the
guard (not `RUNNING`, no operation in flight): the call is acknowledged,
the thread ends with `operation` cleared, the working tree ends on the
thread's branch with nothing left dirty, and a commit is created only if
the tree was dirty. -/
theorem switchToThreadFull_eval (reg : Registry) (tid : String) (t : Thread)
    (hget : Registry.get reg tid = some t) (hst : t.status ≠ .RUNNING)
    (hop : t.operation = none) (cb : String) (dirty : Bool) (commits : Nat)
    (branches : List String) (created : List (String × String)) :
    switchToThreadFull gitSem reg tid ⟨cb, dirty, commits, branches, created⟩ =
      (Registry.set (Registry.set reg tid { t with operation := some .switching }) tid
          { t with operation := none },
        ⟨t.branchName, false, if dirty then commits + 1 else commits, branches, created⟩,
        true) := by
  simp only [switchToThreadFull, guardAndMark, hget]
  rw [if_neg hst]
  simp only [hop]
  cases dirty <;> rfl

/-- C9: `switchTo` is idempotent once settled — after a first full call
the working tree is on the session's branch; a second full call issued
after the first one's `operation` has cleared is again acknowledged,
leaves the tree on the same branch, and (the tree having been left clean
by the first call) creates no new commit. -/
theorem switchTo_idempotent (reg : Registry) (tid : String) (t : Thread) (g : GitState)
    (hget : Registry.get reg tid = some t) (hst : t.status ≠ .RUNNING)
    (hop : t.operation = none) :
    (switchToThreadFull gitSem reg tid g).2.2 = true ∧
    (switchToThreadFull gitSem reg tid g).2.1.currentBranch = t.branchName ∧
    (switchToThreadFull gitSem (switchToThreadFull gitSem reg tid g).1 tid
        (switchToThreadFull gitSem reg tid g).2.1).2.2 = true ∧
    (switchToThreadFull gitSem (switchToThreadFull gitSem reg tid g).1 tid
        (switchToThreadFull gitSem reg tid g).2.1).2.1.currentBranch = t.branchName ∧
    (switchToThreadFull gitSem (switchToThreadFull gitSem reg tid g).1 tid
        (switchToThreadFull gitSem reg tid g).2.1).2.1.commits =
      (switchToThreadFull gitSem reg tid g).2.1.commits := by
  obtain ⟨cb, dirty, commits, branches, created⟩ := g
  have e1 := switchToThreadFull_eval reg tid t hget hst hop cb dirty commits branches created
  have e2 := switchToThreadFull_eval
    (Registry.set (Registry.set reg tid { t with operation := some .switching }) tid
      { t with operation := none })
    tid { t with operation := none }
    (Registry.get_set_self _ _ _) hst rfl
    t.branchName false (if dirty then commits + 1 else commits) branches created
  simp [e1, e2]

/-- C9 witness: two consecutive full `switchTo` calls on the sample
session starting from a dirty tree on `main`. -/
theorem switchTo_idempotent_witness :
    (switchToThreadFull gitSem sampleReg "a" ⟨"main", true, 0, ["main"], []⟩).2.2 = true ∧
    (switchToThreadFull gitSem sampleReg "a"
        ⟨"main", true, 0, ["main"], []⟩).2.1.currentBranch = "feat/vibe-a" ∧
    (switchToThreadFull gitSem
        (switchToThreadFull gitSem sampleReg "a" ⟨"main", true, 0, ["main"], []⟩).1 "a"
        (switchToThreadFull gitSem sampleReg "a"
          ⟨"main", true, 0, ["main"], []⟩).2.1).2.2 = true ∧
    (switchToThreadFull gitSem
        (switchToThreadFull gitSem sampleReg "a" ⟨"main", true, 0, ["main"], []⟩).1 "a"
        (switchToThreadFull gitSem sampleReg "a"
          ⟨"main", true, 0, ["main"], []⟩).2.1).2.1.currentBranch = "feat/vibe-a" ∧
    (switchToThreadFull gitSem
        (switchToThreadFull gitSem sampleReg "a" ⟨"main", true, 0, ["main"], []⟩).1 "a"
        (switchToThreadFull gitSem sampleReg "a"
          ⟨"main", true, 0, ["main"], []⟩).2.1).2.1.commits =
      (switchToThreadFull gitSem sampleReg "a" ⟨"main", true, 0, ["main"], []⟩).2.1.commits := by
  have h := switchTo_idempotent sampleReg "a" sampleThread ⟨"main", true, 0, ["main"], []⟩
    (by decide) (by decide) (by decide)
  exact ⟨h.1, h.2.1, h.2.2.1, h.2.2.2.1, h.2.2.2.2⟩

/-- C10 (frame property of a failed merge): when the merge background
task fails, the session stored back has the same `id`, `branchName`,
`createdAt`, `history` and `lastCommitHash` it had at the start of the
merge; only `status` (now `ERROR`), `operation` (now `null`) and
`errorMessage` (now the failure message) change. -/
theorem mergeThreadAsync_failure_frame (σ : Type) (git : Git σ) (reg : Registry)
    (tid : String) (t : Thread) (s : σ) :
    ∀ msg s', mergeThreadAsyncRun git t s = .error msg s' →
      ∃ th, Registry.get (mergeThreadAsync git reg tid t s).1 tid = some th ∧
        th.id = t.id ∧ th.branchName = t.branchName ∧ th.createdAt = t.createdAt ∧
        th.history = t.history ∧ th.lastCommitHash = t.lastCommitHash ∧
        th.status = .ERROR ∧ th.operation = none ∧ th.errorMessage = some msg := by
  intro msg s' hrun
  refine ⟨{ t with operation := none, status := .ERROR, errorMessage := some msg },
    ?_, rfl, rfl, rfl, rfl, rfl, rfl, rfl, rfl⟩
  simp only [mergeThreadAsync, hrun]
  exact Registry.get_set_self reg tid _

/-- C10 witness: the failed merge of the sample session keeps every
field except `status`, `operation` and `errorMessage`. -/
theorem mergeThreadAsync_failure_frame_witness :
    ∃ th, Registry.get
        (mergeThreadAsync gitMergeConflict sampleReg "a" sampleThread ()).1 "a" = some th ∧
      th.id = sampleThread.id ∧ th.branchName = sampleThread.branchName ∧
      th.createdAt = sampleThread.createdAt ∧ th.history = sampleThread.history ∧
      th.lastCommitHash = sampleThread.lastCommitHash ∧
      th.status = .ERROR ∧ th.operation = none ∧
      th.errorMessage = some "merge conflict" := by
  exact mergeThreadAsync_failure_frame Unit gitMergeConflict sampleReg "a" sampleThread ()
    "merge conflict" () rfl
